import Mathlib

/-!
Shallow embedding, over exact real arithmetic, of the hard-sphere
event-driven simulator in src/Ball.py and src/App.py.

Vectors of length 2 are modelled as `ℝ × ℝ`, floats as `ℝ`, and the
`np.inf` entries of the collision tables as `⊤ : WithTop ℝ`.  Python
exceptions are modelled with `Except String`.
-/

namespace HardSpheres

/-- Dot product of 2-vectors, `np.dot` on length-2 arrays. -/
def dot (a b : ℝ × ℝ) : ℝ := a.1 * b.1 + a.2 * b.2

/-- The persistent fields assigned in `Ball.__init__` (src/Ball.py:34-50),
minus the two rendering patches, which are graphics-only. -/
structure Ball where
  position : ℝ × ℝ
  velocity : ℝ × ℝ
  mass : ℝ
  radius : ℝ
  distance_travelled : ℝ
  ball_collisions : ℕ
  wall_collisions : ℕ

instance : Inhabited Ball := ⟨⟨(0, 0), (0, 0), 1, 1, 0, 0, 0⟩⟩

/-- Embeds `Ball.__init__` (src/Ball.py:34-50): the constructor raises when the
position or velocity does not have length 2, and otherwise stores the four
arguments unchanged and zeroes the statistics counters.  No other check is
performed on any argument. -/
def mkBall (position velocity : List ℝ) (mass radius : ℝ) : Except String Ball :=
  if position.length ≠ 2 ∨ velocity.length ≠ 2 then
    Except.error "Unexpected position or velocity format in Ball module."
  else
    Except.ok ⟨(position.getD 0 0, position.getD 1 0),
               (velocity.getD 0 0, velocity.getD 1 0), mass, radius, 0, 0, 0⟩

/-- Embeds `Ball.kinetic_energy` (src/Ball.py:85-92). -/
def kinetic_energy (b : Ball) : ℝ := 0.5 * b.mass * dot b.velocity b.velocity

/-- Embeds `Ball.speed_squared` (src/Ball.py:94-101). -/
def speed_squared (b : Ball) : ℝ := dot b.velocity b.velocity

/-- Embeds `Ball.momentum` (src/Ball.py:115-121): `velocity * mass`. -/
def momentum (b : Ball) : ℝ × ℝ := b.mass • b.velocity

/-- Embeds `Ball.update_position` (src/Ball.py:123-133): the position advances by
`dp = velocity * dt` and `distance_travelled` grows by `‖dp‖`. -/
noncomputable def update_position (b : Ball) (dt : ℝ) : Ball :=
  { b with position := b.position + dt • b.velocity,
           distance_travelled :=
             b.distance_travelled
               + Real.sqrt (dot (dt • b.velocity) (dt • b.velocity)) }

/-- Embeds `Ball.update_velocity` (src/Ball.py:135-141). -/
def update_velocity (b : Ball) (v : ℝ × ℝ) : Ball := { b with velocity := v }

/-- The positive-time floor `1e-12` of `Ball.predict_collision_time`
(src/Ball.py:216): roots at or below it are discarded as `t = 0`
re-detections. -/
noncomputable def timeFloor : ℝ := 1 / 10 ^ 12

/-- Embeds `Ball.predict_collision_time` (src/Ball.py:191-221) under exact
arithmetic.  `np.roots([a, b, c])` strips leading zero coefficients: for
`a ≠ 0` it yields the two quadratic roots, complex (hence dropped by the
`np.isreal` filter) exactly when the discriminant is negative; for
`a = 0, b ≠ 0` it yields the single linear root `-c / b`; for
`a = b = 0` it yields no roots at all.  The comprehension keeping the real
roots above `timeFloor` followed by `np.amin` (with `np.inf` for an empty
list) is unrolled here over those explicit root lists. -/
noncomputable def predict_collision_time (a b c : ℝ) : WithTop ℝ :=
  if a ≠ 0 then
    if b ^ 2 - 4 * a * c < 0 then ⊤
    else
      if timeFloor < (-b - Real.sqrt (b ^ 2 - 4 * a * c)) / (2 * a) then
        if timeFloor < (-b + Real.sqrt (b ^ 2 - 4 * a * c)) / (2 * a) then
          ((min ((-b - Real.sqrt (b ^ 2 - 4 * a * c)) / (2 * a))
                ((-b + Real.sqrt (b ^ 2 - 4 * a * c)) / (2 * a)) : ℝ) : WithTop ℝ)
        else ((-b - Real.sqrt (b ^ 2 - 4 * a * c)) / (2 * a) : ℝ)
      else
        if timeFloor < (-b + Real.sqrt (b ^ 2 - 4 * a * c)) / (2 * a) then
          ((-b + Real.sqrt (b ^ 2 - 4 * a * c)) / (2 * a) : ℝ)
        else ⊤
  else if b ≠ 0 then
    if timeFloor < -c / b then ((-c / b : ℝ) : WithTop ℝ) else ⊤
  else ⊤

/-- Embeds `Ball.next_wall_collision` (src/Ball.py:143-160). -/
noncomputable def next_wall_collision (b : Ball) (container_radius : ℝ) : WithTop ℝ :=
  predict_collision_time (dot b.velocity b.velocity)
    (2 * dot b.position b.velocity)
    (dot b.position b.position - (container_radius - b.radius) ^ 2)

/-- Embeds `Ball.next_ball_collision` (src/Ball.py:162-189). -/
noncomputable def next_ball_collision (b other : Ball) : WithTop ℝ :=
  predict_collision_time
    (dot (b.velocity - other.velocity) (b.velocity - other.velocity))
    (2 * dot (b.position - other.position) (b.velocity - other.velocity))
    (dot (b.position - other.position) (b.position - other.position)
      - (b.radius + other.radius) ^ 2)

/-- Embeds `Ball.velocity_after_wall_collision` (src/Ball.py:223-235):
`v = u - r * (2 (u·r) / (r·r))`. -/
noncomputable def velocity_after_wall_collision (b : Ball) : ℝ × ℝ :=
  b.velocity - (2 * dot b.velocity b.position / dot b.position b.position) • b.position

/-- Embeds `Ball.velocity_after_ball_collision` (src/Ball.py:237-266): the pair
`[v1, v2]` with `s = 2 (Δx·Δv) / ((m1+m2) (Δx·Δx))`, `v1 = u1 - Δx m2 s`,
`v2 = u2 + Δx m1 s`. -/
noncomputable def velocity_after_ball_collision (b other : Ball) : (ℝ × ℝ) × (ℝ × ℝ) :=
  ((b.velocity -
      (other.mass * (2 * dot (b.position - other.position) (b.velocity - other.velocity) /
        ((b.mass + other.mass) * dot (b.position - other.position) (b.position - other.position)))) •
      (b.position - other.position)),
   (other.velocity +
      (b.mass * (2 * dot (b.position - other.position) (b.velocity - other.velocity) /
        ((b.mass + other.mass) * dot (b.position - other.position) (b.position - other.position)))) •
      (b.position - other.position)))

/-- Euclidean norm of a 2-vector, `numpy.linalg.norm`. -/
noncomputable def normV (v : ℝ × ℝ) : ℝ := Real.sqrt (dot v v)

/-- The quadratic `a t^2 + b t + c` whose roots `predict_collision_time`
selects from. -/
def quad (a b c t : ℝ) : ℝ := a * t ^ 2 + b * t + c

/-- Index of the first occurrence of the minimum of a list, which is what
`np.argmin` returns (numpy raises on an empty array; we return 0 there). -/
noncomputable def argmin : List (WithTop ℝ) → ℕ
  | [] => 0
  | [_] => 0
  | x :: y :: ys =>
    if x ≤ (y :: ys).getD (argmin (y :: ys)) ⊤ then 0 else argmin (y :: ys) + 1

/-- Minimum of a list of table entries, `⊤` for the empty list. -/
noncomputable def listMin (l : List (WithTop ℝ)) : WithTop ℝ := l.foldr min ⊤

/-- Read entry `t[i][j]` of a two-dimensional table (`⊤` out of bounds;
the source only indexes in bounds). -/
def tableGet (t : List (List (WithTop ℝ))) (i j : ℕ) : WithTop ℝ :=
  (t.getD i []).getD j ⊤

/-- Write entry `t[i][j]` of a two-dimensional table (no-op out of bounds;
the source only indexes in bounds). -/
def setTable (t : List (List (WithTop ℝ))) (i j : ℕ) (v : WithTop ℝ) :
    List (List (WithTop ℝ)) :=
  t.set i ((t.getD i []).set j v)

/-- The simulation state held by `App` (src/App.py:55-98): the ball list,
the two collision-time tables, and the scalar observables.  The rendering
attributes and the `WriteOutput`/animation plumbing are out of scope.  The
source stores `rms_speed`; only its square root step differs from
`rms_speed_sum / num_balls`.  `num_balls` is set to `len(self.balls())` by
the constructor. -/
structure AppState where
  container_radius : ℝ
  balls : List Ball
  b2w_table : List (WithTop ℝ)
  b2b_table : List (List (WithTop ℝ))
  time : ℝ
  num_balls : ℕ
  kinetic_energy : ℝ
  rms_speed : ℝ
  pressure : ℝ
  delta_p : ℝ
  ball_collisions : ℕ
  wall_collisions : ℕ
  container_circumference : ℝ

/-- Body of the inner `for j in range(i+1, l)` loop of `App.init_table`
(src/App.py:117-119): `b2b_table[i][j] = balls[i].next_ball_collision(balls[j])`. -/
noncomputable def init_table_inner (i : ℕ) (st : AppState) (j : ℕ) : AppState :=
  { st with
      b2b_table := setTable st.b2b_table i j
        (next_ball_collision (st.balls.getD i default) (st.balls.getD j default)) }

/-- Body of the outer `for i in range(l)` loop of `App.init_table`
(src/App.py:113-119): set `b2w_table[i]`, then run the inner loop. -/
noncomputable def init_table_outer (n : ℕ) (st : AppState) (i : ℕ) : AppState :=
  (List.range' (i + 1) (n - (i + 1))).foldl (init_table_inner i)
    { st with
        b2w_table := st.b2w_table.set i
          (next_wall_collision (st.balls.getD i default) st.container_radius) }

/-- Embeds `App.init_table` (src/App.py:108-119): for every `i` set `b2w[i]`, and
for every `j` in `range(i+1, l)` with `l = self.num_balls` set `b2b[i][j]`.
The Python loops become left folds over the same index ranges. -/
noncomputable def init_table (s : AppState) : AppState :=
  (List.range s.num_balls).foldl (init_table_outer s.num_balls) s

/-- Body of the inner loop of `App.update_table` (src/App.py:130-132):
`b2b_table[i][j] -= dt`. -/
noncomputable def update_table_inner (dt : ℝ) (i : ℕ) (st : AppState) (j : ℕ) : AppState :=
  { st with
      b2b_table := setTable st.b2b_table i j
        ((tableGet st.b2b_table i j).map (fun x => x - dt)) }

/-- Body of the outer loop of `App.update_table` (src/App.py:129-132). -/
noncomputable def update_table_outer (n : ℕ) (dt : ℝ) (st : AppState) (i : ℕ) : AppState :=
  (List.range' (i + 1) (n - (i + 1))).foldl (update_table_inner dt i) st

/-- Embeds `App.update_table` (src/App.py:121-132): `b2w -= dt` elementwise, then
`b2b[i][j] -= dt` for `j` in `range(i+1, l)` with `l = len(b2b_table)`.
Subtracting `dt` from `np.inf` leaves `np.inf`, which `WithTop.map` models. -/
noncomputable def update_table (s : AppState) (dt : ℝ) : AppState :=
  (List.range s.b2b_table.length).foldl (update_table_outer s.b2b_table.length dt)
    { s with b2w_table := s.b2w_table.map (fun t => t.map (fun x => x - dt)) }

/-- Body of the inner `for j in range(l)` loop of `App.recalculate_collision`
(src/App.py:145-153): when `j ≠ i`, write
`b2b[min i j][max i j] := balls[i].next_ball_collision(balls[j])`. -/
noncomputable def recalculate_inner (i : ℕ) (st : AppState) (j : ℕ) : AppState :=
  if i = j then st
  else
    { st with
        b2b_table := setTable st.b2b_table (min i j) (max i j)
          (next_ball_collision (st.balls.getD i default) (st.balls.getD j default)) }

/-- Body of the outer `for i in ball_ids` loop of `App.recalculate_collision`
(src/App.py:140-153): reset `b2w[i]`, then run the inner loop over all `j`. -/
noncomputable def recalculate_outer (n : ℕ) (st : AppState) (i : ℕ) : AppState :=
  (List.range n).foldl (recalculate_inner i)
    { st with
        b2w_table := st.b2w_table.set i
          (next_wall_collision (st.balls.getD i default) st.container_radius) }

/-- Embeds `App.recalculate_collision` (src/App.py:134-153). -/
noncomputable def recalculate_collision (s : AppState) (ball_ids : List ℕ) : AppState :=
  ball_ids.foldl (recalculate_outer s.num_balls) s

/-- Embeds `App.next_collision` (src/App.py:155-179): `np.argmin` over `b2w`, and
`np.argmin` over the row-major flattening of `b2b` unravelled against the
square shape `(n, n)`; the wall event is returned only when its time is
strictly smaller. -/
noncomputable def next_collision (s : AppState) : List ℕ × WithTop ℝ :=
  let b2w := argmin s.b2w_table
  let b2w_time := s.b2w_table.getD b2w ⊤
  let q := argmin s.b2b_table.flatten
  let i := q / s.b2b_table.length
  let j := q % s.b2b_table.length
  let b2b_time := tableGet s.b2b_table i j
  if b2w_time < b2b_time then ([b2w], b2w_time) else ([i, j], b2b_time)

/-- Embeds `App.update_state` (src/App.py:287-306): recompute kinetic energy and
the RMS sum over all balls, then `time += dt`, and only then compute
`pressure = delta_p / (container_circumference * time)` guarded by
`time > 0.0` — against the already advanced clock.  The assignment to the
rendering scale `Ball.rms_speed` and the `print_line` output call are out
of scope. -/
noncomputable def update_state (s : AppState) (dt : ℝ) : AppState :=
  { s with
    time := s.time + dt,
    kinetic_energy := (s.balls.map kinetic_energy).sum,
    rms_speed := Real.sqrt ((s.balls.map speed_squared).sum / (s.num_balls : ℝ)),
    pressure := if 0 < s.time + dt then
        s.delta_p / (s.container_circumference * (s.time + dt))
      else 0 }

/-- Embeds `App.collide` (src/App.py:181-237): decrement the tables by the event
time, advance every ball, resolve a wall event (one participant) or a
ball event (two participants), repair the affected table entries, bump the
collision counters and finish with `update_state(dt)`.  The source unpacks
`collision[0]` by its length; `getD` supplies the in-range indices. -/
noncomputable def collide (s : AppState) (collision : List ℕ × ℝ) : AppState :=
  let dt := collision.2
  let s1 := update_table s dt
  let s2 := { s1 with balls := s1.balls.map (fun b => update_position b dt) }
  if collision.1.length = 1 then
    let i := collision.1.getD 0 0
    let ball := s2.balls.getD i default
    let v := velocity_after_wall_collision ball
    let s3 := { s2 with
      balls := s2.balls.set i (update_velocity ball v),
      delta_p := s2.delta_p
        + Real.sqrt (dot (ball.mass • (v - ball.velocity)) (ball.mass • (v - ball.velocity))) }
    let s4 := recalculate_collision s3 [i]
    let s5 := { s4 with
      balls := s4.balls.set i
        { s4.balls.getD i default with
          wall_collisions := (s4.balls.getD i default).wall_collisions + 1 },
      wall_collisions := s4.wall_collisions + 1 }
    update_state s5 dt
  else
    let i := collision.1.getD 0 0
    let j := collision.1.getD 1 0
    let b1 := s2.balls.getD i default
    let b2 := s2.balls.getD j default
    let v12 := velocity_after_ball_collision b1 b2
    let s3 := { s2 with
      balls := (s2.balls.set i (update_velocity b1 v12.1)).set j (update_velocity b2 v12.2) }
    let s4 := recalculate_collision s3 [i, j]
    let l1 := s4.balls.set i
      { s4.balls.getD i default with
        ball_collisions := (s4.balls.getD i default).ball_collisions + 1 }
    let l2 := l1.set j
      { l1.getD j default with ball_collisions := (l1.getD j default).ball_collisions + 1 }
    let s5 := { s4 with balls := l2, ball_collisions := s4.ball_collisions + 1 }
    update_state s5 dt

/-- The pairwise table is logically upper-triangular: every entry on or
below the diagonal is `np.inf` (out-of-range positions read as `⊤`). -/
def LowerTri (t : List (List (WithTop ℝ))) : Prop :=
  ∀ i j : ℕ, j ≤ i → tableGet t i j = ⊤

/-- The containment invariant of the spec:
`|position| + radius ≤ containerRadius`. -/
noncomputable def inContainer (b : Ball) (R : ℝ) : Prop :=
  normV b.position + b.radius ≤ R

/-- An `App` state right after construction for a single stationary ball:
tables freshly filled with `np.inf` (src/App.py:80-81), before
`init_table` runs. -/
noncomputable def stalledState : AppState :=
  { container_radius := 10,
    balls := [⟨(0, 0), (0, 0), 1, 1, 0, 0, 0⟩],
    b2w_table := [⊤], b2b_table := [[⊤]],
    time := 0, num_balls := 1, kinetic_energy := 0, rms_speed := 0,
    pressure := 0, delta_p := 0, ball_collisions := 0, wall_collisions := 0,
    container_circumference := 2 * Real.pi * 10 }

/-- A two-ball state whose wall table minimum and pairwise table minimum
are exactly equal (both `1`), exercising the tie in `next_collision`. -/
noncomputable def tieState : AppState :=
  { container_radius := 10,
    balls := [default, default],
    b2w_table := [((1 : ℝ) : WithTop ℝ), ⊤],
    b2b_table := [[⊤, ((1 : ℝ) : WithTop ℝ)], [⊤, ⊤]],
    time := 0, num_balls := 2, kinetic_energy := 0, rms_speed := 0,
    pressure := 0, delta_p := 0, ball_collisions := 0, wall_collisions := 0,
    container_circumference := 2 * Real.pi * 10 }

/-- A second tied two-ball state (minima both `2`), used to instantiate the
general tie-break theorem on concrete input. -/
noncomputable def tieState2 : AppState :=
  { container_radius := 10,
    balls := [default, default],
    b2w_table := [((2 : ℝ) : WithTop ℝ), ⊤],
    b2b_table := [[⊤, ((2 : ℝ) : WithTop ℝ)], [⊤, ⊤]],
    time := 0, num_balls := 2, kinetic_energy := 0, rms_speed := 0,
    pressure := 0, delta_p := 0, ball_collisions := 0, wall_collisions := 0,
    container_circumference := 2 * Real.pi * 10 }

/-- Freshly constructed two-ball state in a container of radius 10:
ball 0 sits exactly at the wall (`|(0,9)| + 1 = 10`) moving tangentially
outward along `(0,1)`; ball 1 is at the centre moving at `(2,0)` towards
the wall, which it reaches after time `9/2`. -/
noncomputable def escapeState : AppState :=
  { container_radius := 10,
    balls := [⟨(0, 9), (0, 1), 1, 1, 0, 0, 0⟩, ⟨(0, 0), (2, 0), 1, 1, 0, 0, 0⟩],
    b2w_table := [⊤, ⊤], b2b_table := [[⊤, ⊤], [⊤, ⊤]],
    time := 0, num_balls := 2, kinetic_energy := 0, rms_speed := 0,
    pressure := 0, delta_p := 0, ball_collisions := 0, wall_collisions := 0,
    container_circumference := 2 * Real.pi * 10 }

/-- A state just before its first collision event: clock still at `0`,
with some accumulated wall impulse `delta_p = 1`. -/
noncomputable def pressureState : AppState :=
  { container_radius := 10,
    balls := [default],
    b2w_table := [⊤], b2b_table := [[⊤]],
    time := 0, num_balls := 1, kinetic_energy := 0, rms_speed := 0,
    pressure := 0, delta_p := 1, ball_collisions := 0, wall_collisions := 0,
    container_circumference := 2 * Real.pi * 10 }

lemma dot_self_ne_zero (p : ℝ × ℝ) (hp : p ≠ (0, 0)) : dot p p ≠ 0 := by
  intro h0
  apply hp
  unfold dot at h0
  have hx : p.1 * p.1 = 0 := by nlinarith [mul_self_nonneg p.1, mul_self_nonneg p.2]
  have hy : p.2 * p.2 = 0 := by nlinarith [mul_self_nonneg p.1, mul_self_nonneg p.2]
  exact Prod.ext (mul_self_eq_zero.mp hx) (mul_self_eq_zero.mp hy)

/-- Claim C7 (amended): `Ball` construction succeeds exactly when the position
and the velocity have length 2; the mass and radius arguments are stored
without any validation (src/Ball.py:36-38 is the only check performed by
`Ball.__init__`). -/
theorem mkBall_ok_iff (position velocity : List ℝ) (mass radius : ℝ) :
    (∃ b, mkBall position velocity mass radius = Except.ok b) ↔
      position.length = 2 ∧ velocity.length = 2 := by
  by_cases hp : position.length = 2
  · by_cases hv : velocity.length = 2
    · simp [mkBall, hp, hv]
    · simp [mkBall, hp, hv]
  · simp [mkBall, hp]

/-- Claim C7 counterexample: `Ball([0,0], [0,0], mass=-1, radius=1)` is
accepted and produces a ball with negative mass, so construction does not
reject `mass ≤ 0`. -/
theorem mkBall_negative_mass_accepted :
    mkBall [0, 0] [0, 0] (-1) 1 =
      Except.ok ⟨(0, 0), (0, 0), -1, 1, 0, 0, 0⟩ := by
  rfl

/-- Claim C5: under exact arithmetic every collision resolution preserves
kinetic energy: a wall bounce preserves the speed `|v|` of the ball
(`velocity_after_wall_collision`, for a ball not at the exact centre), and
a two-ball collision preserves `½m1|v1|² + ½m2|v2|²` for any positive
masses and distinct centres (`velocity_after_ball_collision`). -/
theorem collision_kinetic_energy_conserved (b b1 b2 : Ball) :
    (b.position ≠ (0, 0) →
      normV (velocity_after_wall_collision b) = normV b.velocity) ∧
    (0 < b1.mass → 0 < b2.mass → b1.position ≠ b2.position →
      kinetic_energy (update_velocity b1 (velocity_after_ball_collision b1 b2).1) +
          kinetic_energy (update_velocity b2 (velocity_after_ball_collision b1 b2).2) =
        kinetic_energy b1 + kinetic_energy b2) := by
  constructor
  · intro hr
    have hrr : dot b.position b.position ≠ 0 := dot_self_ne_zero _ hr
    unfold normV
    congr 1
    obtain ⟨⟨p1, p2⟩, ⟨v1, v2⟩, m, rad, dtr, cb, cw⟩ := b
    simp only [velocity_after_wall_collision, dot, Prod.mk_sub_mk, Prod.smul_mk,
      smul_eq_mul] at hrr ⊢
    field_simp
    ring
  · intro h1 h2 hx
    have hdx : b1.position - b2.position ≠ (0, 0) := by
      intro h
      exact hx (sub_eq_zero.mp (by simpa using h))
    have hdd : dot (b1.position - b2.position) (b1.position - b2.position) ≠ 0 :=
      dot_self_ne_zero _ hdx
    have hm : b1.mass + b2.mass ≠ 0 := ne_of_gt (by linarith)
    obtain ⟨⟨p1, p2⟩, ⟨u1, u2⟩, m1, r1, d1, cb1, cw1⟩ := b1
    obtain ⟨⟨q1, q2⟩, ⟨w1, w2⟩, m2, r2, d2, cb2, cw2⟩ := b2
    simp only [velocity_after_ball_collision, kinetic_energy, update_velocity, dot,
      Prod.mk_sub_mk, Prod.mk_add_mk, Prod.smul_mk, smul_eq_mul] at hdd hm ⊢
    field_simp
    ring

/-- Claim C5 witness: the conservation theorem applied to a concrete wall
bounce at position `(1,0)` with velocity `(2,3)`, and to a concrete
head-on collision of equal masses. -/
theorem collision_kinetic_energy_conserved_witness :
    normV (velocity_after_wall_collision ⟨(1, 0), (2, 3), 1, 1, 0, 0, 0⟩) =
        normV (Ball.velocity ⟨(1, 0), (2, 3), 1, 1, 0, 0, 0⟩) ∧
    kinetic_energy (update_velocity ⟨(0, 0), (1, 0), 1, 1, 0, 0, 0⟩
          (velocity_after_ball_collision ⟨(0, 0), (1, 0), 1, 1, 0, 0, 0⟩
            ⟨(2, 0), (-1, 0), 1, 1, 0, 0, 0⟩).1) +
        kinetic_energy (update_velocity ⟨(2, 0), (-1, 0), 1, 1, 0, 0, 0⟩
          (velocity_after_ball_collision ⟨(0, 0), (1, 0), 1, 1, 0, 0, 0⟩
            ⟨(2, 0), (-1, 0), 1, 1, 0, 0, 0⟩).2) =
      kinetic_energy (⟨(0, 0), (1, 0), 1, 1, 0, 0, 0⟩ : Ball) +
        kinetic_energy (⟨(2, 0), (-1, 0), 1, 1, 0, 0, 0⟩ : Ball) :=
  ⟨(collision_kinetic_energy_conserved ⟨(1, 0), (2, 3), 1, 1, 0, 0, 0⟩
      ⟨(0, 0), (1, 0), 1, 1, 0, 0, 0⟩ ⟨(2, 0), (-1, 0), 1, 1, 0, 0, 0⟩).1
      (by norm_num [Prod.ext_iff]),
   (collision_kinetic_energy_conserved ⟨(1, 0), (2, 3), 1, 1, 0, 0, 0⟩
      ⟨(0, 0), (1, 0), 1, 1, 0, 0, 0⟩ ⟨(2, 0), (-1, 0), 1, 1, 0, 0, 0⟩).2
      (by norm_num) (by norm_num) (by norm_num [Prod.ext_iff])⟩

/-- Claim C6: under exact arithmetic `velocity_after_ball_collision` conserves
total momentum: `m1·v1' + m2·v2' = m1·u1 + m2·u2` for any positive masses
and distinct centres. -/
theorem ball_collision_momentum_conserved (b1 b2 : Ball)
    (h1 : 0 < b1.mass) (h2 : 0 < b2.mass) (hx : b1.position ≠ b2.position) :
    momentum (update_velocity b1 (velocity_after_ball_collision b1 b2).1) +
        momentum (update_velocity b2 (velocity_after_ball_collision b1 b2).2) =
      momentum b1 + momentum b2 := by
  have hdx : b1.position - b2.position ≠ (0, 0) := by
    intro h
    exact hx (sub_eq_zero.mp (by simpa using h))
  have hdd : dot (b1.position - b2.position) (b1.position - b2.position) ≠ 0 :=
    dot_self_ne_zero _ hdx
  have hm : b1.mass + b2.mass ≠ 0 := ne_of_gt (by linarith)
  obtain ⟨⟨p1, p2⟩, ⟨u1, u2⟩, m1, r1, d1, cb1, cw1⟩ := b1
  obtain ⟨⟨q1, q2⟩, ⟨w1, w2⟩, m2, r2, d2, cb2, cw2⟩ := b2
  simp only [velocity_after_ball_collision, momentum, update_velocity, dot,
    Prod.mk_sub_mk, Prod.mk_add_mk, Prod.smul_mk, smul_eq_mul] at hdd hm ⊢
  refine Prod.ext ?_ ?_ <;>
    · simp only [Prod.mk_add_mk, Prod.fst_add, Prod.snd_add]
      field_simp
      ring

/-- Claim C6 witness: momentum conservation applied to a concrete head-on
equal-mass collision. -/
theorem ball_collision_momentum_conserved_witness :
    momentum (update_velocity ⟨(0, 0), (1, 0), 1, 1, 0, 0, 0⟩
          (velocity_after_ball_collision ⟨(0, 0), (1, 0), 1, 1, 0, 0, 0⟩
            ⟨(2, 0), (-1, 0), 2, 1, 0, 0, 0⟩).1) +
        momentum (update_velocity ⟨(2, 0), (-1, 0), 2, 1, 0, 0, 0⟩
          (velocity_after_ball_collision ⟨(0, 0), (1, 0), 1, 1, 0, 0, 0⟩
            ⟨(2, 0), (-1, 0), 2, 1, 0, 0, 0⟩).2) =
      momentum (⟨(0, 0), (1, 0), 1, 1, 0, 0, 0⟩ : Ball) +
        momentum (⟨(2, 0), (-1, 0), 2, 1, 0, 0, 0⟩ : Ball) :=
  ball_collision_momentum_conserved ⟨(0, 0), (1, 0), 1, 1, 0, 0, 0⟩
    ⟨(2, 0), (-1, 0), 2, 1, 0, 0, 0⟩ (by norm_num) (by norm_num)
    (by norm_num [Prod.ext_iff])

lemma quad_root_cases (a b c t : ℝ) (ha : a ≠ 0) (ht : quad a b c t = 0)
    (hd0 : 0 ≤ b ^ 2 - 4 * a * c) :
    t = (-b - Real.sqrt (b ^ 2 - 4 * a * c)) / (2 * a) ∨
      t = (-b + Real.sqrt (b ^ 2 - 4 * a * c)) / (2 * a) := by
  have hs : Real.sqrt (b ^ 2 - 4 * a * c) ^ 2 = b ^ 2 - 4 * a * c := Real.sq_sqrt hd0
  have hfac : (2 * a * t + b - Real.sqrt (b ^ 2 - 4 * a * c)) *
      (2 * a * t + b + Real.sqrt (b ^ 2 - 4 * a * c)) = 0 := by
    have hq : (2 * a * t + b) ^ 2 = Real.sqrt (b ^ 2 - 4 * a * c) ^ 2 := by
      rw [hs]; unfold quad at ht; linear_combination 4 * a * ht
    linear_combination hq
  rcases mul_eq_zero.mp hfac with h | h
  · right; field_simp; linarith
  · left; field_simp; linarith

lemma quad_root_formula (a b c : ℝ) (ha : a ≠ 0) (hd0 : 0 ≤ b ^ 2 - 4 * a * c) :
    quad a b c ((-b - Real.sqrt (b ^ 2 - 4 * a * c)) / (2 * a)) = 0 ∧
      quad a b c ((-b + Real.sqrt (b ^ 2 - 4 * a * c)) / (2 * a)) = 0 := by
  have hs : Real.sqrt (b ^ 2 - 4 * a * c) ^ 2 = b ^ 2 - 4 * a * c := Real.sq_sqrt hd0
  constructor <;>
  · unfold quad
    field_simp
    linear_combination (2 * a ^ 2) * hs

/-- Claim C4: `predict_collision_time a b c` returns `+∞` when the
discriminant `b² - 4ac` is negative; returns the smaller root when the
quadratic has two real roots that both exceed the positive-time floor
`1e-12`; and returns `+∞` when every real root of the quadratic is at or
below the floor. -/
theorem predict_collision_time_root_selection (a b c : ℝ) :
    (b ^ 2 - 4 * a * c < 0 → predict_collision_time a b c = ⊤) ∧
    (∀ t1 t2 : ℝ, a ≠ 0 → quad a b c t1 = 0 → quad a b c t2 = 0 → t1 < t2 →
      timeFloor < t1 → predict_collision_time a b c = ((t1 : ℝ) : WithTop ℝ)) ∧
    ((∀ t : ℝ, quad a b c t = 0 → t ≤ timeFloor) →
      predict_collision_time a b c = ⊤) := by
  refine ⟨?_, ?_, ?_⟩
  · intro hd
    by_cases ha : a = 0
    · exfalso; rw [ha] at hd; nlinarith [sq_nonneg b]
    · unfold predict_collision_time
      rw [if_pos ha, if_pos hd]
  · intro t1 t2 ha ht1 ht2 hlt hfl
    have hd0 : 0 ≤ b ^ 2 - 4 * a * c := by
      have h : b ^ 2 - 4 * a * c = (2 * a * t1 + b) ^ 2 := by
        unfold quad at ht1; linear_combination (-4 * a) * ht1
      rw [h]; exact sq_nonneg _
    have hcase1 := quad_root_cases a b c t1 ha ht1 hd0
    have hcase2 := quad_root_cases a b c t2 ha ht2 hd0
    unfold predict_collision_time
    rw [if_pos ha, if_neg (not_lt.mpr hd0)]
    rcases hcase1 with h1 | h1 <;> rcases hcase2 with h2 | h2
    · exact absurd (h1.trans h2.symm) (ne_of_lt hlt)
    · rw [if_pos (h1 ▸ hfl), if_pos (h2 ▸ (hfl.trans hlt)), ← h1, ← h2,
        min_eq_left hlt.le]
    · rw [if_pos (h2 ▸ (hfl.trans hlt)), if_pos (h1 ▸ hfl), ← h2, ← h1,
        min_eq_right hlt.le]
    · exact absurd (h1.trans h2.symm) (ne_of_lt hlt)
  · intro hall
    by_cases ha : a = 0
    · by_cases hb : b = 0
      · unfold predict_collision_time
        rw [if_neg (fun h => h ha), if_neg (fun h => h hb)]
      · have hroot : quad a b c (-c / b) = 0 := by
          unfold quad; rw [ha]; field_simp; ring
        have hle := hall _ hroot
        unfold predict_collision_time
        rw [if_neg (fun h => h ha), if_pos hb, if_neg (not_lt.mpr hle)]
    · by_cases hd : b ^ 2 - 4 * a * c < 0
      · unfold predict_collision_time; rw [if_pos ha, if_pos hd]
      · have hd0 := not_lt.mp hd
        obtain ⟨hr1, hr2⟩ := quad_root_formula a b c ha hd0
        have hle1 := hall _ hr1
        have hle2 := hall _ hr2
        unfold predict_collision_time
        rw [if_pos ha, if_neg hd, if_neg (not_lt.mpr hle1), if_neg (not_lt.mpr hle2)]

/-- Claim C4 witness: for `t² - 3t + 2` (roots `1 < 2`, both above the
floor), `predict_collision_time` returns the smaller root `1`. -/
theorem predict_collision_time_root_selection_witness :
    predict_collision_time 1 (-3) 2 = ((1 : ℝ) : WithTop ℝ) :=
  (predict_collision_time_root_selection 1 (-3) 2).2.1 1 2 (by norm_num)
    (by norm_num [quad]) (by norm_num [quad]) (by norm_num)
    (by norm_num [timeFloor])

/-- Claim C8: with a degenerate leading coefficient `a = 0` the root finder
never divides by zero: `predict_collision_time 0 b c` is the linear root
`-c/b` when `b ≠ 0` and that root exceeds the floor, and `+∞` in every
other case; consequently two stationary non-touching balls get `+∞` from
both `next_ball_collision` and `next_wall_collision`. -/
theorem degenerate_quadratic_handled (b c : ℝ) :
    (b ≠ 0 → timeFloor < -c / b →
      predict_collision_time 0 b c = ((-c / b : ℝ) : WithTop ℝ)) ∧
    (b ≠ 0 → -c / b ≤ timeFloor → predict_collision_time 0 b c = ⊤) ∧
    (predict_collision_time 0 0 c = ⊤) ∧
    (∀ (b1 b2 : Ball) (R : ℝ), b1.velocity = (0, 0) → b2.velocity = (0, 0) →
      dot (b1.position - b2.position) (b1.position - b2.position) ≠
        (b1.radius + b2.radius) ^ 2 →
      next_ball_collision b1 b2 = ⊤ ∧ next_wall_collision b1 R = ⊤) := by
  have hz : ¬((0 : ℝ) ≠ 0) := fun h => h rfl
  refine ⟨?_, ?_, ?_, ?_⟩
  · intro hb hfl
    unfold predict_collision_time
    rw [if_neg hz, if_pos hb, if_pos hfl]
  · intro hb hfl
    unfold predict_collision_time
    rw [if_neg hz, if_pos hb, if_neg (not_lt.mpr hfl)]
  · unfold predict_collision_time
    rw [if_neg hz, if_neg hz]
  · intro b1 b2 R h1 h2 _
    constructor
    · unfold next_ball_collision
      rw [h1, h2]
      have e1 : ((0, 0) - (0, 0) : ℝ × ℝ) = (0, 0) := by norm_num
      rw [e1]
      have e2 : dot ((0, 0) : ℝ × ℝ) (0, 0) = 0 := by norm_num [dot]
      have e3 : dot (b1.position - b2.position) ((0, 0) : ℝ × ℝ) = 0 := by
        simp [dot]
      rw [e2, e3, mul_zero]
      unfold predict_collision_time
      rw [if_neg hz, if_neg hz]
    · unfold next_wall_collision
      rw [h1]
      have e2 : dot ((0, 0) : ℝ × ℝ) (0, 0) = 0 := by norm_num [dot]
      have e3 : dot b1.position ((0, 0) : ℝ × ℝ) = 0 := by simp [dot]
      rw [e2, e3, mul_zero]
      unfold predict_collision_time
      rw [if_neg hz, if_neg hz]

/-- Claim C8 witness: two concrete stationary balls at distance 5 with radii
summing to 2 both receive infinite collision times. -/
theorem degenerate_quadratic_handled_witness :
    next_ball_collision ⟨(0, 0), (0, 0), 1, 1, 0, 0, 0⟩
        ⟨(5, 0), (0, 0), 1, 1, 0, 0, 0⟩ = ⊤ ∧
    next_wall_collision ⟨(0, 0), (0, 0), 1, 1, 0, 0, 0⟩ 10 = ⊤ :=
  (degenerate_quadratic_handled 0 0).2.2.2 ⟨(0, 0), (0, 0), 1, 1, 0, 0, 0⟩
    ⟨(5, 0), (0, 0), 1, 1, 0, 0, 0⟩ 10 rfl rfl (by norm_num [dot])

lemma getD_set {α : Type} (l : List α) (i a : ℕ) (x d : α) :
    (l.set i x).getD a d = if i = a ∧ a < l.length then x else l.getD a d := by
  induction l generalizing i a with
  | nil => simp
  | cons hd tl ih =>
    cases i with
    | zero =>
      cases a with
      | zero => simp
      | succ a => simp
    | succ i =>
      cases a with
      | zero => simp
      | succ a =>
        simp only [List.set_cons_succ, List.getD_cons_succ, List.length_cons]
        rw [ih]
        by_cases h : i = a ∧ a < tl.length
        · rw [if_pos h, if_pos (by omega)]
        · rw [if_neg h, if_neg (by omega)]

lemma tableGet_setTable_ne (t : List (List (WithTop ℝ))) (i j a b : ℕ)
    (v : WithTop ℝ) (h : ¬(i = a ∧ j = b)) :
    tableGet (setTable t i j v) a b = tableGet t a b := by
  unfold tableGet setTable
  rw [getD_set]
  by_cases hia : i = a ∧ a < t.length
  · rw [if_pos hia]
    obtain ⟨rfl, _⟩ := hia
    rw [getD_set, if_neg (fun hc => h ⟨rfl, hc.1⟩)]
  · rw [if_neg hia]

lemma lowerTri_setTable {t : List (List (WithTop ℝ))} {i j : ℕ}
    {v : WithTop ℝ} (ht : LowerTri t) (hij : i < j) :
    LowerTri (setTable t i j v) := by
  intro a b hba
  rw [tableGet_setTable_ne t i j a b v (by rintro ⟨rfl, rfl⟩; omega)]
  exact ht a b hba

lemma foldl_preserves {β : Type} (P : AppState → Prop) (f : AppState → β → AppState)
    (l : List β) (s : AppState) (hs : P s)
    (hf : ∀ st x, x ∈ l → P st → P (f st x)) : P (l.foldl f s) := by
  induction l generalizing s with
  | nil => exact hs
  | cons hd tl ih =>
    exact ih (f s hd) (hf s hd (List.mem_cons_self _ _) hs)
      (fun st x hx => hf st x (List.mem_cons_of_mem _ hx))

lemma lowerTri_init_outer (n i : ℕ) (st : AppState) (h : LowerTri st.b2b_table) :
    LowerTri (init_table_outer n st i).b2b_table := by
  unfold init_table_outer
  apply foldl_preserves (fun s => LowerTri s.b2b_table)
  · exact h
  · intro st2 j hj h2
    have hij : i < j := by
      have := (List.mem_range'_1.mp hj).1
      omega
    exact lowerTri_setTable h2 hij

lemma lowerTri_update_outer (n i : ℕ) (dt : ℝ) (st : AppState)
    (h : LowerTri st.b2b_table) :
    LowerTri (update_table_outer n dt st i).b2b_table := by
  unfold update_table_outer
  apply foldl_preserves (fun s => LowerTri s.b2b_table) _ _ _ h
  intro st2 j hj h2
  have hij : i < j := by
    have := (List.mem_range'_1.mp hj).1
    omega
  exact lowerTri_setTable h2 hij

lemma lowerTri_recalculate_outer (n i : ℕ) (st : AppState)
    (h : LowerTri st.b2b_table) :
    LowerTri (recalculate_outer n st i).b2b_table := by
  unfold recalculate_outer
  apply foldl_preserves (fun s => LowerTri s.b2b_table)
  · exact h
  · intro st2 j _ h2
    unfold recalculate_inner
    by_cases hij : i = j
    · rw [if_pos hij]; exact h2
    · rw [if_neg hij]
      exact lowerTri_setTable h2 (by omega)

lemma getD_replicate {α : Type} (n i : ℕ) (a d : α) :
    (List.replicate n a).getD i d = if i < n then a else d := by
  induction n generalizing i with
  | zero => simp
  | succ n ih =>
    cases i with
    | zero => simp [List.replicate]
    | succ i =>
      simp only [List.replicate_succ, List.getD_cons_succ]
      rw [ih]
      by_cases h : i < n
      · rw [if_pos h, if_pos (by omega)]
      · rw [if_neg h, if_neg (by omega)]

/-- Claim C10: the pairwise table is logically upper-triangular: every cell
`b2b[i][j]` with `i ≥ j` is `+∞` in the freshly constructed `np.full`
table, and this is preserved by `init_table`, `update_table` and
`recalculate_collision`; consequently, whenever the whole-matrix argmin of
`next_collision` lands on a non-`+∞` cell `(i, j)`, that cell has `i < j`. -/
theorem b2b_table_upper_triangular :
    (∀ n : ℕ, LowerTri (List.replicate n (List.replicate n (⊤ : WithTop ℝ)))) ∧
    (∀ s : AppState, LowerTri s.b2b_table → LowerTri (init_table s).b2b_table) ∧
    (∀ (s : AppState) (dt : ℝ), LowerTri s.b2b_table →
      LowerTri (update_table s dt).b2b_table) ∧
    (∀ (s : AppState) (ids : List ℕ), LowerTri s.b2b_table →
      LowerTri (recalculate_collision s ids).b2b_table) ∧
    (∀ s : AppState, LowerTri s.b2b_table →
      tableGet s.b2b_table (argmin s.b2b_table.flatten / s.b2b_table.length)
          (argmin s.b2b_table.flatten % s.b2b_table.length) ≠ ⊤ →
      argmin s.b2b_table.flatten / s.b2b_table.length <
        argmin s.b2b_table.flatten % s.b2b_table.length) := by
  refine ⟨?_, ?_, ?_, ?_, ?_⟩
  · intro n i j _
    unfold tableGet
    rw [getD_replicate]
    by_cases hi : i < n
    · rw [if_pos hi, getD_replicate]
      by_cases hj : j < n
      · rw [if_pos hj]
      · rw [if_neg hj]
    · rw [if_neg hi]
      simp
  · intro s h
    unfold init_table
    exact foldl_preserves (fun st => LowerTri st.b2b_table) _ _ _ h
      (fun st i _ h2 => lowerTri_init_outer _ i st h2)
  · intro s dt h
    unfold update_table
    exact foldl_preserves (fun st => LowerTri st.b2b_table) _ _ _ h
      (fun st i _ h2 => lowerTri_update_outer _ i dt st h2)
  · intro s ids h
    unfold recalculate_collision
    exact foldl_preserves (fun st => LowerTri st.b2b_table) _ _ _ h
      (fun st i _ h2 => lowerTri_recalculate_outer _ i st h2)
  · intro s h hne
    by_contra hij
    exact hne (h _ _ (not_lt.mp hij))

lemma lowerTri_single_top : LowerTri [[(⊤ : WithTop ℝ)]] := by
  intro i j _
  unfold tableGet
  cases i with
  | zero =>
    cases j with
    | zero => rfl
    | succ j => simp [List.getD]
  | succ i => simp [List.getD]

/-- Claim C10 witness: the preservation theorem applied to `update_table` on
the one-ball state with table `[[⊤]]`, read back at the diagonal cell. -/
theorem b2b_table_upper_triangular_witness :
    tableGet (update_table stalledState 5).b2b_table 0 0 = ⊤ :=
  b2b_table_upper_triangular.2.2.1 stalledState 5 lowerTri_single_top 0 0
    (le_refl 0)

lemma listMin_cons (x : WithTop ℝ) (l : List (WithTop ℝ)) :
    listMin (x :: l) = min x (listMin l) := rfl

lemma argmin_getD (l : List (WithTop ℝ)) (hl : l ≠ []) :
    l.getD (argmin l) ⊤ = listMin l := by
  induction l with
  | nil => exact absurd rfl hl
  | cons x xs ih =>
    cases xs with
    | nil =>
      show x = listMin [x]
      rw [listMin_cons]
      exact (min_eq_left le_top).symm
    | cons y ys =>
      have ihne := ih (by simp)
      unfold argmin
      by_cases hle : x ≤ (y :: ys).getD (argmin (y :: ys)) ⊤
      · rw [if_pos hle, List.getD_cons_zero, listMin_cons]
        rw [ihne] at hle
        exact (min_eq_left hle).symm
      · rw [if_neg hle, List.getD_cons_succ, ihne, listMin_cons]
        rw [ihne] at hle
        exact (min_eq_right (not_le.mp hle).le).symm

lemma argmin_lt_length (l : List (WithTop ℝ)) (hl : l ≠ []) :
    argmin l < l.length := by
  induction l with
  | nil => exact absurd rfl hl
  | cons x xs ih =>
    cases xs with
    | nil => simp [argmin]
    | cons y ys =>
      have := ih (by simp)
      unfold argmin
      by_cases hle : x ≤ (y :: ys).getD (argmin (y :: ys)) ⊤
      · rw [if_pos hle]; simp
      · rw [if_neg hle]
        simp only [List.length_cons] at this ⊢
        omega

lemma flatten_length_square (t : List (List (WithTop ℝ))) (n : ℕ)
    (hrows : ∀ r ∈ t, r.length = n) : t.flatten.length = t.length * n := by
  induction t with
  | nil => simp
  | cons row rest ih =>
    rw [List.flatten_cons, List.length_append, List.length_cons,
      hrows row (List.mem_cons_self _ _),
      ih (fun r hr => hrows r (List.mem_cons_of_mem _ hr))]
    ring

lemma tableGet_div_mod (t : List (List (WithTop ℝ))) (n : ℕ) (hn : 0 < n)
    (hrows : ∀ r ∈ t, r.length = n) (q : ℕ) (hq : q < t.length * n) :
    tableGet t (q / n) (q % n) = t.flatten.getD q ⊤ := by
  induction t generalizing q with
  | nil => simp at hq
  | cons row rest ih =>
    have hrow : row.length = n := hrows row (List.mem_cons_self _ _)
    rw [List.flatten_cons]
    by_cases hqn : q < n
    · rw [Nat.div_eq_of_lt hqn, Nat.mod_eq_of_lt hqn]
      unfold tableGet
      rw [List.getD_cons_zero, List.getD_append _ _ _ _ (by omega)]
    · push_neg at hqn
      rw [Nat.div_eq_sub_div hn hqn, Nat.mod_eq_sub_mod hqn]
      unfold tableGet
      rw [List.getD_cons_succ, List.getD_append_right _ _ _ _ (by omega), hrow]
      have hq2 : q - n < rest.length * n := by
        rw [List.length_cons, Nat.succ_mul] at hq
        exact (tsub_lt_iff_right hqn).mpr hq
      have := ih (fun r hr => hrows r (List.mem_cons_of_mem _ hr)) (q - n) hq2
      unfold tableGet at this
      exact this

/-- Claim C2 (amended): when the minimum of the wall table equals the minimum
of the pairwise table exactly, `next_collision` returns the two-participant
ball event, not the wall event: the `<` comparison in src/App.py:174 gives
the wall event only a strictly smaller time. -/
theorem next_collision_tie_returns_ball_event (s : AppState)
    (hw : s.b2w_table ≠ [])
    (hn : 0 < s.b2b_table.length)
    (hrows : ∀ r ∈ s.b2b_table, r.length = s.b2b_table.length)
    (htie : listMin s.b2w_table = listMin s.b2b_table.flatten) :
    (next_collision s).1.length = 2 := by
  have hjlen : s.b2b_table.flatten.length = s.b2b_table.length * s.b2b_table.length :=
    flatten_length_square _ _ hrows
  have hjne : s.b2b_table.flatten ≠ [] := by
    intro h
    rw [h] at hjlen
    simp only [List.length_nil] at hjlen
    have := Nat.mul_pos hn hn
    omega
  have h1 : s.b2w_table.getD (argmin s.b2w_table) ⊤ = listMin s.b2w_table :=
    argmin_getD _ hw
  have hq : argmin s.b2b_table.flatten < s.b2b_table.length * s.b2b_table.length := by
    rw [← hjlen]; exact argmin_lt_length _ hjne
  have h2 : tableGet s.b2b_table (argmin s.b2b_table.flatten / s.b2b_table.length)
      (argmin s.b2b_table.flatten % s.b2b_table.length) =
      s.b2b_table.flatten.getD (argmin s.b2b_table.flatten) ⊤ :=
    tableGet_div_mod _ _ hn hrows _ hq
  have h3 : s.b2b_table.flatten.getD (argmin s.b2b_table.flatten) ⊤ =
      listMin s.b2b_table.flatten := argmin_getD _ hjne
  simp only [next_collision]
  rw [h1, h2, h3, htie, if_neg (lt_irrefl _)]
  rfl

/-- Claim C2 witness: the tie-break theorem applied to the concrete state
`tieState2`, whose two table minima are both exactly `2`. -/
theorem next_collision_tie_returns_ball_event_witness :
    (next_collision tieState2).1.length = 2 :=
  next_collision_tie_returns_ball_event tieState2 (by simp [tieState2])
    (by simp [tieState2])
    (by
      intro r hr
      rw [show tieState2.b2b_table = [[⊤, ((2 : ℝ) : WithTop ℝ)], [⊤, ⊤]] from rfl] at hr
      fin_cases hr <;> rfl)
    (by simp [tieState2, listMin_cons, listMin, min_top_left, min_top_right])

/-- Claim C2 counterexample: in `tieState` the wall minimum and the pairwise
minimum are both exactly `1`, yet `next_collision` returns the
two-participant ball event `[[0, 1], 1]` and not the one-participant wall
event the claim requires. -/
theorem next_collision_tie_cex :
    listMin tieState.b2w_table = listMin tieState.b2b_table.flatten ∧
    next_collision tieState = ([0, 1], ((1 : ℝ) : WithTop ℝ)) ∧
    (next_collision tieState).1.length ≠ 1 := by
  have h2 : next_collision tieState = ([0, 1], ((1 : ℝ) : WithTop ℝ)) := by
    simp only [next_collision, tieState]
    norm_num [argmin, tableGet, List.getD]
  refine ⟨?_, h2, by rw [h2]; norm_num⟩
  simp [tieState, listMin_cons, listMin, min_top_left, min_top_right]

/-- Claim C3 (amended): `update_state(dt)` first advances the clock to
`t_old + dt` (src/App.py:300) and only then computes the pressure against
the already advanced clock (src/App.py:303-304):
`pressure = delta_p / (circumference * (t_old + dt))`, or `0` when the
advanced clock is not positive. -/
theorem update_state_clock_then_pressure (s : AppState) (dt : ℝ) :
    (update_state s dt).time = s.time + dt ∧
    (update_state s dt).pressure =
      if 0 < s.time + dt then s.delta_p / (s.container_circumference * (s.time + dt))
      else 0 :=
  ⟨rfl, rfl⟩

/-- Claim C3 counterexample: at the first collision event (`t_old = 0`,
`dt = 1`, accumulated impulse `delta_p = 1`) the recorded pressure is
`1 / (20π)`, not `0` as the claim requires, because the clock is advanced
before the pressure is computed. -/
theorem update_state_first_event_pressure_nonzero :
    pressureState.time = 0 ∧ pressureState.delta_p = 1 ∧
    (update_state pressureState 1).pressure ≠ 0 := by
  refine ⟨rfl, rfl, ?_⟩
  have h : (update_state pressureState 1).pressure =
      1 / (2 * Real.pi * 10 * (0 + 1)) := by
    show (if 0 < pressureState.time + 1 then
        pressureState.delta_p /
          (pressureState.container_circumference * (pressureState.time + 1))
      else 0) = 1 / (2 * Real.pi * 10 * (0 + 1))
    rw [if_pos (by norm_num [pressureState])]
    rfl
  rw [h]
  have hpi : (0 : ℝ) < 2 * Real.pi * 10 * (0 + 1) := by
    have := Real.pi_pos
    nlinarith
  positivity

lemma predict_zero_zero (c : ℝ) : predict_collision_time 0 0 c = ⊤ := by
  unfold predict_collision_time
  rw [if_neg (fun h => h rfl), if_neg (fun h => h rfl)]

lemma stationary_wall_top (b : Ball) (R : ℝ) (hv : b.velocity = (0, 0)) :
    next_wall_collision b R = ⊤ := by
  unfold next_wall_collision
  rw [hv]
  have e2 : dot ((0, 0) : ℝ × ℝ) (0, 0) = 0 := by norm_num [dot]
  have e3 : dot b.position ((0, 0) : ℝ × ℝ) = 0 := by simp [dot]
  rw [e2, e3, mul_zero]
  exact predict_zero_zero _

/-- Claim C1 (code-bug evidence): after the real table initialization of a
single stationary ball, every table entry is `+∞`, and `next_collision`
returns the degenerate event `[[0, 0], inf]` with an infinite time instead
of any error value; `App.render` (src/App.py:260-262) feeds this event
straight into `collide` with no finiteness check, so no "simulation
stalled" error exists anywhere in the code. -/
theorem next_collision_stalled_infinite :
    next_collision (init_table stalledState) = ([0, 0], (⊤ : WithTop ℝ)) := by
  have hinit : init_table stalledState = stalledState := by
    show (List.range stalledState.num_balls).foldl
        (init_table_outer stalledState.num_balls) stalledState = stalledState
    rw [show stalledState.num_balls = 1 from rfl]
    rw [show List.range 1 = [0] from rfl]
    rw [List.foldl_cons, List.foldl_nil]
    unfold init_table_outer
    rw [show (1 : ℕ) - (0 + 1) = 0 from rfl]
    rw [show List.range' (0 + 1) 0 = [] from rfl, List.foldl_nil]
    rw [stationary_wall_top _ _ rfl]
    rfl
  rw [hinit]
  simp only [next_collision]
  rw [show stalledState.b2w_table = [⊤] from rfl,
    show stalledState.b2b_table = [[⊤]] from rfl]
  rw [show argmin [⊤] = 0 from rfl]
  rw [show ([[(⊤ : WithTop ℝ)]].flatten) = [⊤] from rfl]
  rw [show argmin [⊤] = 0 from rfl]
  norm_num [tableGet, List.getD]

lemma balls_foldl {β : Type} (f : AppState → β → AppState) (l : List β)
    (s : AppState) (hf : ∀ st x, x ∈ l → (f st x).balls = st.balls) :
    (l.foldl f s).balls = s.balls := by
  induction l generalizing s with
  | nil => rfl
  | cons hd tl ih =>
    rw [List.foldl_cons, ih _ (fun st x hx => hf st x (List.mem_cons_of_mem _ hx)),
      hf s hd (List.mem_cons_self _ _)]

lemma recalculate_inner_balls (i : ℕ) (st : AppState) (j : ℕ) :
    (recalculate_inner i st j).balls = st.balls := by
  unfold recalculate_inner
  by_cases h : i = j
  · rw [if_pos h]
  · rw [if_neg h]

lemma init_table_balls (s : AppState) : (init_table s).balls = s.balls := by
  unfold init_table
  apply balls_foldl
  intro st i _
  unfold init_table_outer
  rw [balls_foldl (init_table_inner i) _ _ (fun st2 j _ => rfl)]

lemma update_table_balls (s : AppState) (dt : ℝ) :
    (update_table s dt).balls = s.balls := by
  unfold update_table
  apply balls_foldl
  intro st i _
  unfold update_table_outer
  exact balls_foldl (update_table_inner dt i) _ _ (fun st2 j _ => rfl)

lemma recalculate_balls (s : AppState) (ids : List ℕ) :
    (recalculate_collision s ids).balls = s.balls := by
  unfold recalculate_collision
  apply balls_foldl
  intro st i _
  unfold recalculate_outer
  rw [balls_foldl (recalculate_inner i) _ _ (fun st2 j _ => recalculate_inner_balls i st2 j)]

lemma sqrt_eval (x r : ℝ) (hr : 0 ≤ r) (h : r ^ 2 = x) : Real.sqrt x = r := by
  rw [← h]
  exact Real.sqrt_sq hr

lemma normV_eval (x y r : ℝ) (hr : 0 ≤ r) (h : r ^ 2 = x * x + y * y) :
    normV (x, y) = r := by
  unfold normV dot
  exact sqrt_eval _ _ hr h

/-- Claim C9 (amended): a single position advance of `collide` keeps a
strictly interior ball in the container provided the ball does not touch
the wall at any intermediate time: if `|x| + r < R`, `0 ≤ dt`, and
`|x + t·v| + r ≠ R` for all `t ∈ (0, dt)`, then after `update_position dt`
the ball satisfies `|position| + r ≤ R`.  Strict interiority is necessary:
`containment_escape_cex` shows a ball that starts exactly on the wall
leaving the container in one `collide` step. -/
theorem containment_preserved_one_step (b : Ball) (R dt : ℝ) (hdt : 0 ≤ dt)
    (hin : normV b.position + b.radius < R)
    (hnt : ∀ t : ℝ, 0 < t → t < dt →
      normV (update_position b t).position + b.radius ≠ R) :
    inContainer (update_position b dt) R := by
  have h0 : 0 ≤ normV b.position := Real.sqrt_nonneg _
  have hRr : 0 < R - b.radius := by linarith
  set f : ℝ → ℝ := fun t =>
    (b.position.1 + t * b.velocity.1) ^ 2 + (b.position.2 + t * b.velocity.2) ^ 2
    with hfdef
  have hf : ∀ t : ℝ, dot (b.position + t • b.velocity) (b.position + t • b.velocity)
      = f t := by
    intro t
    simp only [hfdef, dot, Prod.fst_add, Prod.snd_add, Prod.smul_fst, Prod.smul_snd,
      smul_eq_mul]
    ring
  have hcont : Continuous f := by
    rw [hfdef]
    continuity
  have hnorm : ∀ t : ℝ, normV (update_position b t).position = Real.sqrt (f t) := by
    intro t
    unfold update_position normV
    rw [hf]
  have hf0 : f 0 < (R - b.radius) ^ 2 := by
    have hx : Real.sqrt (dot b.position b.position) < R - b.radius := by
      unfold normV at hin
      linarith
    have hlt := (Real.sqrt_lt' hRr).mp hx
    calc f 0 = dot b.position b.position := by
          rw [← hf 0]
          congr 1 <;> · rw [zero_smul, add_zero]
      _ < (R - b.radius) ^ 2 := hlt
  unfold inContainer
  rw [hnorm dt]
  show Real.sqrt (f dt) + b.radius ≤ R
  by_contra hout
  push_neg at hout
  have hfdt : (R - b.radius) ^ 2 < f dt := by
    have h1 : R - b.radius < Real.sqrt (f dt) := by linarith
    exact (Real.lt_sqrt hRr.le).mp h1
  have hmem : (R - b.radius) ^ 2 ∈ Set.Ioo (f 0) (f dt) := ⟨hf0, hfdt⟩
  obtain ⟨s, hs, hfs⟩ := intermediate_value_Ioo hdt hcont.continuousOn hmem
  refine hnt s hs.1 hs.2 ?_
  rw [hnorm s, hfs, Real.sqrt_sq hRr.le]
  ring

/-- Claim C9 witness: the one-step containment theorem applied to a
stationary ball at the centre of a container of radius 10 over `dt = 1`. -/
theorem containment_preserved_one_step_witness :
    inContainer (update_position ⟨(0, 0), (0, 0), 1, 1, 0, 0, 0⟩ 1) 10 :=
  containment_preserved_one_step ⟨(0, 0), (0, 0), 1, 1, 0, 0, 0⟩ 10 1
    (by norm_num)
    (by
      rw [show Ball.position ⟨(0, 0), (0, 0), 1, 1, 0, 0, 0⟩ = ((0 : ℝ), (0 : ℝ)) from rfl,
        normV_eval 0 0 0 le_rfl (by norm_num)]
      norm_num)
    (by
      intro t _ _
      rw [show (update_position ⟨(0, 0), (0, 0), 1, 1, 0, 0, 0⟩ t).position =
        ((0 : ℝ), (0 : ℝ)) + t • ((0 : ℝ), (0 : ℝ)) from rfl]
      rw [show ((0 : ℝ), (0 : ℝ)) + t • ((0 : ℝ), (0 : ℝ)) = ((0 : ℝ), (0 : ℝ)) by
        simp]
      rw [normV_eval 0 0 0 le_rfl (by norm_num)]
      norm_num)

lemma predict_escape_wall0 : predict_collision_time 1 18 0 = ⊤ := by
  unfold predict_collision_time
  rw [if_pos (show (1 : ℝ) ≠ 0 by norm_num),
    if_neg (show ¬((18 : ℝ) ^ 2 - 4 * 1 * 0 < 0) by norm_num),
    sqrt_eval ((18 : ℝ) ^ 2 - 4 * 1 * 0) 18 (by norm_num) (by norm_num)]
  rw [if_neg (show ¬(timeFloor < (-(18 : ℝ) - 18) / (2 * 1)) by
      unfold timeFloor; norm_num),
    if_neg (show ¬(timeFloor < (-(18 : ℝ) + 18) / (2 * 1)) by
      unfold timeFloor; norm_num)]

lemma predict_escape_pair : predict_collision_time 5 18 77 = ⊤ := by
  unfold predict_collision_time
  rw [if_pos (show (5 : ℝ) ≠ 0 by norm_num),
    if_pos (show (18 : ℝ) ^ 2 - 4 * 5 * 77 < 0 by norm_num)]

lemma predict_escape_wall1 :
    predict_collision_time 4 0 (-81) = ((9 / 2 : ℝ) : WithTop ℝ) := by
  unfold predict_collision_time
  rw [if_pos (show (4 : ℝ) ≠ 0 by norm_num),
    if_neg (show ¬((0 : ℝ) ^ 2 - 4 * 4 * -81 < 0) by norm_num),
    sqrt_eval ((0 : ℝ) ^ 2 - 4 * 4 * -81) 36 (by norm_num) (by norm_num)]
  rw [if_neg (show ¬(timeFloor < (-(0 : ℝ) - 36) / (2 * 4)) by
      unfold timeFloor; norm_num),
    if_pos (show timeFloor < (-(0 : ℝ) + 36) / (2 * 4) by
      unfold timeFloor; norm_num)]
  norm_num

lemma escape_wall0_eval :
    next_wall_collision ⟨(0, 9), (0, 1), 1, 1, 0, 0, 0⟩ 10 = ⊤ := by
  have h : next_wall_collision ⟨(0, 9), (0, 1), 1, 1, 0, 0, 0⟩ 10 =
      predict_collision_time 1 18 0 := by
    unfold next_wall_collision
    norm_num [dot]
  rw [h, predict_escape_wall0]

lemma escape_pair_eval :
    next_ball_collision ⟨(0, 9), (0, 1), 1, 1, 0, 0, 0⟩
      ⟨(0, 0), (2, 0), 1, 1, 0, 0, 0⟩ = ⊤ := by
  have h : next_ball_collision ⟨(0, 9), (0, 1), 1, 1, 0, 0, 0⟩
      ⟨(0, 0), (2, 0), 1, 1, 0, 0, 0⟩ = predict_collision_time 5 18 77 := by
    unfold next_ball_collision
    norm_num [dot, Prod.mk_sub_mk]
  rw [h, predict_escape_pair]

lemma escape_wall1_eval :
    next_wall_collision ⟨(0, 0), (2, 0), 1, 1, 0, 0, 0⟩ 10 =
      ((9 / 2 : ℝ) : WithTop ℝ) := by
  have h : next_wall_collision ⟨(0, 0), (2, 0), 1, 1, 0, 0, 0⟩ 10 =
      predict_collision_time 4 0 (-81) := by
    unfold next_wall_collision
    norm_num [dot]
  rw [h, predict_escape_wall1]

lemma escape_init :
    init_table escapeState =
      { escapeState with b2w_table := [⊤, ((9 / 2 : ℝ) : WithTop ℝ)] } := by
  unfold init_table init_table_outer init_table_inner
  norm_num [escapeState, setTable, tableGet, List.getD_cons_zero, List.getD_cons_succ,
    escape_wall0_eval, escape_pair_eval, escape_wall1_eval, List.range_succ,
    List.range'_succ, -Prod.mk_zero_zero]

lemma collide_wall_ball0 (s : AppState) (b0 b1 : Ball) (dt : ℝ)
    (hb : s.balls = [b0, b1]) :
    (collide s ([1], dt)).balls.getD 0 default = update_position b0 dt := by
  simp only [collide, update_state, List.length_cons, List.length_nil,
    List.getD_cons_zero, List.getD_cons_succ, recalculate_balls, update_table_balls,
    hb, List.map_cons, List.map_nil, List.set_cons_succ, List.set_cons_zero,
    if_true, ite_true, eq_self_iff_true]

/-- Claim C9 counterexample: a two-ball configuration satisfying the
containment invariant (`|position| + radius ≤ 10` for both balls, with
ball 0 exactly on the wall) whose very first `collide` step moves ball 0
to `(0, 27/2)`, violating containment: ball 0's imminent wall contact is
at `t = 0`, which the `1e-12` floor discards, so its wall entry is `+∞`
and the event chosen is ball 1's wall collision at `t = 9/2`. -/
theorem containment_escape_cex :
    inContainer (escapeState.balls.getD 0 default) 10 ∧
    inContainer (escapeState.balls.getD 1 default) 10 ∧
    next_collision (init_table escapeState) = ([1], ((9 / 2 : ℝ) : WithTop ℝ)) ∧
    ¬ inContainer
        ((collide (init_table escapeState) ([1], 9 / 2)).balls.getD 0 default)
        10 := by
  refine ⟨?_, ?_, ?_, ?_⟩
  · show normV ((0 : ℝ), (9 : ℝ)) + 1 ≤ 10
    rw [normV_eval 0 9 9 (by norm_num) (by norm_num)]
    norm_num
  · show normV ((0 : ℝ), (0 : ℝ)) + 1 ≤ 10
    rw [normV_eval 0 0 0 le_rfl (by norm_num)]
    norm_num
  · have hb2w : (init_table escapeState).b2w_table =
        [⊤, ((9 / 2 : ℝ) : WithTop ℝ)] := by rw [escape_init]
    have hb2b : (init_table escapeState).b2b_table = [[⊤, ⊤], [⊤, ⊤]] := by
      rw [escape_init]; rfl
    simp only [next_collision]
    rw [hb2w, hb2b]
    norm_num [argmin, tableGet, List.getD_cons_zero, List.getD_cons_succ,
      List.flatten_cons, List.flatten_nil, top_le_iff, WithTop.coe_lt_top]
  · have hballs : (init_table escapeState).balls =
        [⟨(0, 9), (0, 1), 1, 1, 0, 0, 0⟩, ⟨(0, 0), (2, 0), 1, 1, 0, 0, 0⟩] := by
      rw [init_table_balls]; rfl
    rw [collide_wall_ball0 _ _ _ _ hballs]
    unfold inContainer
    rw [show (update_position ⟨(0, 9), (0, 1), 1, 1, 0, 0, 0⟩ (9 / 2)).position =
        ((0 : ℝ), (9 : ℝ)) + (9 / 2 : ℝ) • ((0 : ℝ), (1 : ℝ)) from rfl]
    rw [show ((0 : ℝ), (9 : ℝ)) + (9 / 2 : ℝ) • ((0 : ℝ), (1 : ℝ)) =
        ((0 : ℝ), (27 / 2 : ℝ)) by
      norm_num [Prod.ext_iff, Prod.smul_mk, Prod.mk_add_mk, smul_eq_mul]]
    rw [normV_eval 0 (27 / 2) (27 / 2) (by norm_num) (by norm_num)]
    show ¬((27 / 2 : ℝ) + 1 ≤ 10)
    norm_num

end HardSpheres
